import Mathlib

/-!
Verification development for the `test_solutions.py` typed test harness of the
hexlet-codebattle/tasks repository.  Dynamic Python values are embedded as the
inductive `PyVal` (Python's `bool` is a separate constructor even though it is
a subclass of `int` in Python; the source's `isinstance(v, int) and not
isinstance(v, bool)` test corresponds exactly to the `.int` constructor, and
`isinstance(v, bool)` to `.bool`).  Python floats are embedded as `PyFloat`:
an exact rational for finite values (no verified property depends on IEEE
rounding) together with the special values `nan`, `inf` and `-inf`, whose
equality behaviour — in particular `nan != nan` — the harness inherits from
Python `==`.  Strings are Lean strings; Python `str.lower` and `str.isdigit`
are modelled on their ASCII behaviour, which covers every value the verified
claims touch.
-/

/-- A Python float as the harness can meet it: a finite value (embedded as
an exact rational; no claim depends on IEEE rounding), or one of the
special values `nan`, `inf`, `-inf`, all three reachable through TOML float
literals, the `NaN`/`Infinity` extension of `json.loads`, and solution
return values.  `nan` compares unequal to everything, itself included. -/
inductive PyFloat where
  | finite : ℚ → PyFloat
  | nan : PyFloat
  | inf : PyFloat
  | ninf : PyFloat
deriving Repr

/-- A dynamically-typed Python value as handled by the test runner: the
primitives produced by TOML/JSON loading and by solution functions, plus
`None`.  Mappings are association lists of string keys in insertion order;
the harness only ever builds string-keyed mappings. -/
inductive PyVal where
  | str : String → PyVal
  | int : Int → PyVal
  | bool : Bool → PyVal
  | float : PyFloat → PyVal
  | list : List PyVal → PyVal
  | dict : List (String × PyVal) → PyVal
  | none : PyVal
deriving Repr

/-- The recursive type-descriptor grammar of `ALLOWED_SIGNATURES`:
`{"name": k}` for a primitive, `{"name": "array"/"hash", "nested": t}`
for containers. -/
inductive PrimKind where
  | string | boolean | integer | float
deriving DecidableEq, Repr

inductive TypeDesc where
  | prim : PrimKind → TypeDesc
  | array : TypeDesc → TypeDesc
  | hash : TypeDesc → TypeDesc
deriving DecidableEq, Repr

/-- Python dict assignment `d[k] = v` on an insertion-ordered association
list: an existing key keeps its position and gets the new value, a new key
is appended at the end. -/
def insertAssoc (k : String) (v : PyVal) : List (String × PyVal) → List (String × PyVal)
  | [] => [(k, v)]
  | (k2, w) :: rest => if k2 = k then (k2, v) :: rest else (k2, w) :: insertAssoc k v rest

/-- ASCII model of Python `str.lower`. -/
def lowerChar (c : Char) : Char :=
  if 'A' ≤ c ∧ c ≤ 'Z' then Char.ofNat (c.toNat + 32) else c

def lowerStr (s : String) : String := String.mk (s.data.map lowerChar)

/-- ASCII model of Python `str.isdigit`: nonempty and all decimal digits. -/
def isDigitStr (s : String) : Bool := !s.data.isEmpty && s.data.all Char.isDigit

/-! ## JSON parsing (model of Python `json.loads`)

`_try_json_container` calls `json.loads`.  The parser below follows the JSON
grammar accepted by `json.loads`: optional whitespace, strings with the
standard escapes, numbers (a leading zero such as in `007` is rejected, a
fraction or exponent makes the value a float), `true`/`false`/`null`, arrays
and objects (a duplicated object key keeps its first position and last value,
as Python dict assignment does).  Recursion is fuelled; `jsonParse` supplies
`2 * length + 4` fuel, ample because every recursive call consumes input. -/

def skipWs : List Char → List Char
  | [] => []
  | c :: cs => if c = ' ' ∨ c = '\t' ∨ c = '\n' ∨ c = '\r' then skipWs cs else c :: cs

def digitsToNat (ds : List Char) : Nat := ds.foldl (fun a c => a * 10 + (c.toNat - 48)) 0

def takeDigits : List Char → List Char × List Char
  | [] => ([], [])
  | c :: cs =>
    if c.isDigit then
      let p := takeDigits cs
      (c :: p.1, p.2)
    else ([], c :: cs)

def hexVal (c : Char) : Option Nat :=
  if c.isDigit then some (c.toNat - 48)
  else if 'a' ≤ c ∧ c ≤ 'f' then some (c.toNat - 87)
  else if 'A' ≤ c ∧ c ≤ 'F' then some (c.toNat - 55)
  else Option.none

def escChar (e : Char) : Option Char :=
  if e = '"' then some '"'
  else if e = '\\' then some '\\'
  else if e = '/' then some '/'
  else if e = 'b' then some (Char.ofNat 8)
  else if e = 'f' then some (Char.ofNat 12)
  else if e = 'n' then some '\n'
  else if e = 'r' then some '\r'
  else if e = 't' then some '\t'
  else Option.none

/-- Parse the body of a JSON string after the opening quote; returns the
decoded characters and the input after the closing quote. -/
def parseStringBody : Nat → List Char → Option (List Char × List Char)
  | 0, _ => Option.none
  | _, [] => Option.none
  | fuel + 1, c :: cs =>
    if c = '"' then some ([], cs)
    else if c = '\\' then
      match cs with
      | [] => Option.none
      | e :: cs2 =>
        if e = 'u' then
          match cs2 with
          | a :: b :: c2 :: d :: cs3 =>
            match hexVal a, hexVal b, hexVal c2, hexVal d with
            | some x, some y, some z, some w =>
              match parseStringBody fuel cs3 with
              | some (out, r) => some (Char.ofNat (((x * 16 + y) * 16 + z) * 16 + w) :: out, r)
              | Option.none => Option.none
            | _, _, _, _ => Option.none
          | _ => Option.none
        else
          match escChar e with
          | some ch =>
            match parseStringBody fuel cs2 with
            | some (out, r) => some (ch :: out, r)
            | Option.none => Option.none
          | Option.none => Option.none
    else
      match parseStringBody fuel cs with
      | some (out, r) => some (c :: out, r)
      | Option.none => Option.none

/-- Parse a JSON number. A fraction or exponent part yields a float (exact
rational in this embedding), otherwise an integer. -/
def parseNumber (cs0 : List Char) : Option (PyVal × List Char) :=
  let sign : Int × List Char :=
    match cs0 with
    | '-' :: r => (-1, r)
    | _ => (1, cs0)
  match takeDigits sign.2 with
  | ([], _) => Option.none
  | (ds, cs1) =>
    if ds.length > 1 ∧ ds.headD '0' = '0' then Option.none
    else
      let ip : Nat := digitsToNat ds
      let fracPart : Option (List Char × List Char) :=
        match cs1 with
        | '.' :: cs2 =>
          match takeDigits cs2 with
          | ([], _) => Option.none
          | (fds, cs3) => some (fds, cs3)
        | _ => some ([], cs1)
      match fracPart with
      | Option.none => Option.none
      | some (fds, cs4) =>
        let expPart : Option (Int × List Char) :=
          match cs4 with
          | 'e' :: cs5 | 'E' :: cs5 =>
            let es : Int × List Char :=
              match cs5 with
              | '-' :: r => (-1, r)
              | '+' :: r => (1, r)
              | _ => (1, cs5)
            match takeDigits es.2 with
            | ([], _) => Option.none
            | (eds, cs6) => some (es.1 * (digitsToNat eds : Int), cs6)
          | _ => some (0, cs4)
        match expPart with
        | Option.none => Option.none
        | some (e, cs7) =>
          let isFloat : Bool := !fds.isEmpty || !(cs4 == cs7)
          if isFloat then
            let mant : ℚ := (ip : ℚ) + (digitsToNat fds : ℚ) / ((10 : ℚ) ^ fds.length)
            some (.float (.finite ((sign.1 : ℚ) * mant * (10 : ℚ) ^ e)), cs7)
          else
            some (.int (sign.1 * (ip : Int)), cs7)

mutual

def parseJsonVal : Nat → List Char → Option (PyVal × List Char)
  | 0, _ => Option.none
  | fuel + 1, cs =>
    match skipWs cs with
    | [] => Option.none
    | '"' :: rest =>
      match parseStringBody (rest.length + 1) rest with
      | some (chars, r) => some (.str (String.mk chars), r)
      | Option.none => Option.none
    | '[' :: rest =>
      match skipWs rest with
      | ']' :: r => some (.list [], r)
      | cs2 =>
        match parseArrayItems fuel cs2 with
        | some (vs, r) => some (.list vs, r)
        | Option.none => Option.none
    | '{' :: rest =>
      match skipWs rest with
      | '}' :: r => some (.dict [], r)
      | cs2 =>
        match parseObjItems fuel cs2 with
        | some (ps, r) =>
          some (.dict (ps.foldl (fun acc kv => insertAssoc kv.1 kv.2 acc) []), r)
        | Option.none => Option.none
    | 't' :: 'r' :: 'u' :: 'e' :: r => some (.bool true, r)
    | 'f' :: 'a' :: 'l' :: 's' :: 'e' :: r => some (.bool false, r)
    | 'n' :: 'u' :: 'l' :: 'l' :: r => some (.none, r)
    | 'N' :: 'a' :: 'N' :: r => some (.float .nan, r)
    | 'I' :: 'n' :: 'f' :: 'i' :: 'n' :: 'i' :: 't' :: 'y' :: r => some (.float .inf, r)
    | '-' :: 'I' :: 'n' :: 'f' :: 'i' :: 'n' :: 'i' :: 't' :: 'y' :: r =>
      some (.float .ninf, r)
    | cs2 => parseNumber cs2

def parseArrayItems : Nat → List Char → Option (List PyVal × List Char)
  | 0, _ => Option.none
  | fuel + 1, cs =>
    match parseJsonVal fuel cs with
    | Option.none => Option.none
    | some (v, r) =>
      match skipWs r with
      | ',' :: r2 =>
        match parseArrayItems fuel r2 with
        | some (vs, r3) => some (v :: vs, r3)
        | Option.none => Option.none
      | ']' :: r2 => some ([v], r2)
      | _ => Option.none

def parseObjItems : Nat → List Char → Option (List (String × PyVal) × List Char)
  | 0, _ => Option.none
  | fuel + 1, cs =>
    match skipWs cs with
    | '"' :: rest =>
      match parseStringBody (rest.length + 1) rest with
      | some (kchars, r) =>
        match skipWs r with
        | ':' :: r2 =>
          match parseJsonVal fuel r2 with
          | some (v, r3) =>
            match skipWs r3 with
            | ',' :: r4 =>
              match parseObjItems fuel r4 with
              | some (ps, r5) => some ((String.mk kchars, v) :: ps, r5)
              | Option.none => Option.none
            | '}' :: r4 => some ([(String.mk kchars, v)], r4)
            | _ => Option.none
          | Option.none => Option.none
        | _ => Option.none
      | Option.none => Option.none
    | _ => Option.none

end

/-- Model of Python `json.loads`: the whole input (modulo surrounding
whitespace) must be consumed. -/
def jsonParse (s : String) : Option PyVal :=
  match parseJsonVal (2 * s.length + 4) s.data with
  | some (v, rest) => if skipWs rest = [] then some v else Option.none
  | Option.none => Option.none

/-- `TestRunner._try_json_container`: parse JSON and only return objects that
are dict/list; `None` if parsing fails or the value is a primitive or is not
a string at all. -/
def tryJsonContainer (v : PyVal) : Option PyVal :=
  match v with
  | .str s =>
    match jsonParse s with
    | some (.list l) => some (.list l)
    | some (.dict d) => some (.dict d)
    | _ => Option.none
  | _ => Option.none

/-- `TestRunner._coerce_for_typecheck`: if `v` is a JSON string representing a
list/dict, the parsed container, otherwise `v` unchanged. -/
def coerceForTypecheck (v : PyVal) : PyVal :=
  match tryJsonContainer v with
  | some j => j
  | Option.none => v

example : jsonParse "[1,2,3]" = some (.list [.int 1, .int 2, .int 3]) := rfl
example : jsonParse "[1, 2]" = some (.list [.int 1, .int 2]) := rfl
example : jsonParse "5" = some (.int 5) := rfl
example : jsonParse "true" = some (.bool true) := rfl
example : jsonParse "1.5" = some (.float (.finite (3 / 2))) := by with_unfolding_all rfl
example : jsonParse "007" = Option.none := rfl
example : jsonParse "\x7b\"a\": [1]\x7d" = some (.dict [("a", .list [.int 1])]) := rfl

/-! ## Python `==` on values

`values_equal`, `find_difference` and the `TestRunner` compare values with
Python `==`.  `pyEq` embeds it: numeric values compare across `int`, `bool`
and `float` (Python's `True == 1`, `1 == 1.0`), strings and containers
compare structurally, and dicts compare as unordered key-to-value mappings
(first-match lookup; on the duplicate-free association lists the harness
builds this is exactly Python dict equality). -/

def boolToInt (b : Bool) : Int := if b then 1 else 0

/-- Python `==` between two floats: finite values compare by value, the
infinities only equal themselves, and `nan` equals nothing, itself
included. -/
def pyFloatEq : PyFloat → PyFloat → Bool
  | .finite a, .finite b => a == b
  | .inf, .inf => true
  | .ninf, .ninf => true
  | _, _ => false

/-- Python `==` between a float and an int (or a bool through its int
value): only a finite float can equal an integer. -/
def pyFloatEqInt (f : PyFloat) (n : Int) : Bool :=
  match f with
  | .finite q => q == (n : ℚ)
  | _ => false

def keyMem (k : String) (l : List (String × PyVal)) : Bool := l.any (fun e => e.1 == k)

/-- First-match association-list lookup (Python `d[k]` on the duplicate-free
lists the harness builds). -/
def lookupFirst (k : String) : List (String × PyVal) → Option PyVal
  | [] => Option.none
  | (k2, w) :: rest => if k2 == k then some w else lookupFirst k rest

mutual

def pyEq : PyVal → PyVal → Bool
  | .str a, .str b => a == b
  | .int a, .int b => a == b
  | .bool a, .bool b => a == b
  | .float a, .float b => pyFloatEq a b
  | .int a, .float b => pyFloatEqInt b a
  | .float a, .int b => pyFloatEqInt a b
  | .bool a, .int b => (boolToInt a == b)
  | .int a, .bool b => (a == boolToInt b)
  | .bool a, .float b => pyFloatEqInt b (boolToInt a)
  | .float a, .bool b => pyFloatEqInt a (boolToInt b)
  | .none, .none => true
  | .list a, .list b => pyEqList a b
  | .dict a, .dict b => pyEqDict a b && (b.all (fun e => keyMem e.1 a))
  | _, _ => false

def pyEqList : List PyVal → List PyVal → Bool
  | [], [] => true
  | x :: xs, y :: ys => pyEq x y && pyEqList xs ys
  | _, _ => false

/-- Every binding of the first list maps, under first-match lookup in the
second list, to an equal value. -/
def pyEqDict : List (String × PyVal) → List (String × PyVal) → Bool
  | [], _ => true
  | (k, v) :: rest, b => pyEqFind k v b && pyEqDict rest b

def pyEqFind : String → PyVal → List (String × PyVal) → Bool
  | _, _, [] => false
  | k, v, (k2, w) :: rest => if k2 == k then pyEq v w else pyEqFind k v rest

end

mutual

/-- `TestRunner.normalize_output`: lower-case every mapping key and every
string leaf, recursively.  The dict comprehension keeps the first position
and last value of keys that collide after lowering, which is what the
`insertAssoc` accumulator reproduces. -/
def normalizeOutput : PyVal → PyVal
  | .dict d => .dict (normDict d [])
  | .list l => .list (normList l)
  | .str s => .str (lowerStr s)
  | v => v

def normList : List PyVal → List PyVal
  | [] => []
  | x :: xs => normalizeOutput x :: normList xs

def normDict : List (String × PyVal) → List (String × PyVal) → List (String × PyVal)
  | [], acc => acc
  | (k, v) :: rest, acc => normDict rest (insertAssoc (lowerStr k) (normalizeOutput v) acc)

end

/-- The guard `isinstance(actual, str) and isinstance(expected, str)` with
`actual.isdigit() and expected.isdigit()` of `values_equal`; when it fails
control falls through to the normalized comparison, so the two nested
conditions flatten to this conjunction. -/
def bothDigitStrings (actual expected : PyVal) : Bool :=
  match actual, expected with
  | .str s1, .str s2 => isDigitStr s1 && isDigitStr s2
  | _, _ => false

/-- `TestRunner.values_equal`: Python `==` first; two all-digit strings are
compared as literal text; otherwise the case-normalized forms are compared. -/
def valuesEqual (actual expected : PyVal) : Bool :=
  if pyEq actual expected then true
  else if bothDigitStrings actual expected then pyEq actual expected
  else pyEq (normalizeOutput actual) (normalizeOutput expected)

/-! ## Type matcher and bounds checker -/

/-- Python `type(v).__name__` for the values the harness handles. -/
def pyTypeName : PyVal → String
  | .str _ => "str"
  | .int _ => "int"
  | .bool _ => "bool"
  | .float _ => "float"
  | .list _ => "list"
  | .dict _ => "dict"
  | .none => "NoneType"

/-- Check every element of a sequence against a fixed nested descriptor,
returning the first failure (`TestRunner.type_matches`, array branch). -/
def checkSeq (f : PyVal → String → Bool × Option String) :
    List PyVal → String → Nat → Bool × Option String
  | [], _, _ => (true, Option.none)
  | x :: xs, path, i =>
    match f x (path ++ "[" ++ toString i ++ "]") with
    | (true, _) => checkSeq f xs path (i + 1)
    | (false, err) => (false, err)

/-- Check every value of a mapping against a fixed nested descriptor,
returning the first failure (`TestRunner.type_matches`, hash branch). -/
def checkMap (f : PyVal → String → Bool × Option String) :
    List (String × PyVal) → String → Bool × Option String
  | [], _ => (true, Option.none)
  | (k, item) :: rest, path =>
    match f item (path ++ "." ++ k) with
    | (true, _) => checkMap f rest path
    | (false, err) => (false, err)

/-- `TestRunner.type_matches`: recursively check that a value matches a
descriptor, after substituting a JSON-container string by its parse at every
level.  (Recursion is structural on the descriptor: the source's
`self.type_matches(nested, item, …)` is `typeMatches nested item …`.) -/
def typeMatches : TypeDesc → PyVal → String → Bool × Option String
  | .prim .string => fun value path =>
    match coerceForTypecheck value with
    | .str _ => (true, Option.none)
    | v => (false, some (path ++ " expected string, got " ++ pyTypeName v))
  | .prim .boolean => fun value path =>
    match coerceForTypecheck value with
    | .bool _ => (true, Option.none)
    | v => (false, some (path ++ " expected boolean, got " ++ pyTypeName v))
  | .prim .integer => fun value path =>
    match coerceForTypecheck value with
    | .int _ => (true, Option.none)
    | v => (false, some (path ++ " expected integer, got " ++ pyTypeName v))
  | .prim .float => fun value path =>
    match coerceForTypecheck value with
    | .float _ => (true, Option.none)
    | v => (false, some (path ++ " expected float, got " ++ pyTypeName v))
  | .array nested => fun value path =>
    match coerceForTypecheck value with
    | .list l => checkSeq (typeMatches nested) l path 0
    | v => (false, some (path ++ " expected array/list, got " ++ pyTypeName v))
  | .hash nested => fun value path =>
    match coerceForTypecheck value with
    | .dict d => checkMap (typeMatches nested) d path
    | v => (false, some (path ++ " expected hash/dict, got " ++ pyTypeName v))

def boundsSeq (f : PyVal → String → Except String Unit) :
    List PyVal → String → Nat → Except String Unit
  | [], _, _ => .ok ()
  | x :: xs, path, i =>
    match f x (path ++ "[" ++ toString i ++ "]") with
    | .ok () => boundsSeq f xs path (i + 1)
    | .error e => .error e

def boundsMap (f : PyVal → String → Except String Unit) :
    List (String × PyVal) → String → Except String Unit
  | [], _ => .ok ()
  | (k, item) :: rest, path =>
    match f item (path ++ "." ++ k) with
    | .ok () => boundsMap f rest path
    | .error e => .error e

/-- `check_int_bounds` inside `TestRunner.check_assert_types`: walk the
shape of the descriptor (after the same JSON-string coercion) and require
every `integer`-typed leaf that is an int to lie in
`[-2147483648, 2147483647)`; everything else is left alone. -/
def checkIntBounds : TypeDesc → PyVal → String → Except String Unit
  | .prim .integer => fun value path =>
    match coerceForTypecheck value with
    | .int m =>
      if -2147483648 ≤ m ∧ m < 2147483647 then .ok ()
      else .error (path ++ ": integer " ++ toString m ++
        " is out of C++ 32-bit int range [-2147483648, 2147483647)")
    | _ => .ok ()
  | .prim _ => fun _ _ => .ok ()
  | .array nested => fun value path =>
    match coerceForTypecheck value with
    | .list l => boundsSeq (checkIntBounds nested) l path 0
    | _ => .ok ()
  | .hash nested => fun value path =>
    match coerceForTypecheck value with
    | .dict d => boundsMap (checkIntBounds nested) d path
    | _ => .ok ()

/-! ## Value rendering (`str()`, `format_value`, `signature_to_str`) -/

/-- Decimal rendering of the fractional expansion of a rational in `[0,1)`,
used by `floatStr`; fuel bounds the number of emitted digits. -/
def fracDigits : Nat → ℚ → String
  | 0, _ => ""
  | fuel + 1, q =>
    if q = 0 then ""
    else
      let q10 := q * 10
      let d : Int := q10.floor
      toString d ++ fracDigits fuel (q10 - (d : ℚ))

/-- Python `str()` of a float: the special values print as `nan`, `inf`
and `-inf`; a finite value (exact rational in this embedding) prints with a
trailing `.0` when integral and its decimal expansion otherwise. -/
def floatStr : PyFloat → String
  | .nan => "nan"
  | .inf => "inf"
  | .ninf => "-inf"
  | .finite q =>
    let sign := if q < 0 then "-" else ""
    let a := |q|
    let ip : Int := a.floor
    let frac := fracDigits 30 (a - (ip : ℚ))
    if frac = "" then sign ++ toString ip ++ ".0"
    else sign ++ toString ip ++ "." ++ frac

mutual

/-- Python `str(value)` for the values the harness prints into messages. -/
def pyStr : PyVal → String
  | .str s => s
  | v => pyRepr v

/-- Python `repr(value)` (the form used for values nested in containers). -/
def pyRepr : PyVal → String
  | .str s => "'" ++ s ++ "'"
  | .int n => toString n
  | .bool b => if b then "True" else "False"
  | .float q => floatStr q
  | .none => "None"
  | .list l => "[" ++ String.intercalate ", " (pyReprList l) ++ "]"
  | .dict d => "\x7b" ++ String.intercalate ", " (pyReprDict d) ++ "\x7d"

def pyReprList : List PyVal → List String
  | [] => []
  | x :: xs => pyRepr x :: pyReprList xs

def pyReprDict : List (String × PyVal) → List String
  | [] => []
  | (k, v) :: rest => ("'" ++ k ++ "': " ++ pyRepr v) :: pyReprDict rest

end

def indentStr (n : Nat) : String := String.join (List.replicate n "  ")

mutual

/-- `TestRunner.format_value`: multi-line rendering of nested structures
(the `color` argument only wraps the result in terminal escapes and is not
modelled). -/
def formatValue : PyVal → Nat → String
  | .list [], _ => "[]"
  | .list items, indent =>
    String.intercalate "\n" (("[" :: formatValueList items indent) ++ [indentStr indent ++ "]"])
  | .dict [], _ => "\x7b\x7d"
  | .dict entries, indent =>
    String.intercalate "\n" (("\x7b" :: formatValueDict entries indent) ++ [indentStr indent ++ "\x7d"])
  | .str s, _ => "\"" ++ s ++ "\""
  | v, _ => pyStr v

def formatValueList : List PyVal → Nat → List String
  | [], _ => []
  | x :: xs, indent =>
    (indentStr (indent + 1) ++ formatValue x (indent + 1) ++ ",") :: formatValueList xs indent

def formatValueDict : List (String × PyVal) → Nat → List String
  | [], _ => []
  | (k, v) :: rest, indent =>
    (indentStr (indent + 1) ++ k ++ ": " ++ formatValue v (indent + 1) ++ ",") ::
      formatValueDict rest indent

end

/-- `TestRunner.signature_to_str`: canonical rendering such as
`array<hash<integer>>`. -/
def signatureToStr : TypeDesc → String
  | .prim .string => "string"
  | .prim .boolean => "boolean"
  | .prim .integer => "integer"
  | .prim .float => "float"
  | .array nested => "array<" ++ signatureToStr nested ++ ">"
  | .hash nested => "hash<" ++ signatureToStr nested ++ ">"

/-- Python `repr` of the signature dict `{"type": …}`, used in the
invalid-signature message of `validate_signature`. -/
def sigInnerRepr : TypeDesc → String
  | .prim .string => "\x7b'name': 'string'\x7d"
  | .prim .boolean => "\x7b'name': 'boolean'\x7d"
  | .prim .integer => "\x7b'name': 'integer'\x7d"
  | .prim .float => "\x7b'name': 'float'\x7d"
  | .array nested => "\x7b'name': 'array', 'nested': " ++ sigInnerRepr nested ++ "\x7d"
  | .hash nested => "\x7b'name': 'hash', 'nested': " ++ sigInnerRepr nested ++ "\x7d"

def sigRepr (t : TypeDesc) : String := "\x7b'type': " ++ sigInnerRepr t ++ "\x7d"

/-! ## Structural diff engine (`find_difference`)

The source file's messages contain the literal character sequence `‚Üí`
(a mis-encoded arrow committed verbatim); the embedding reproduces the
messages byte for byte. -/

/-- `isinstance(v, (list, dict))`. -/
def isContainer : PyVal → Bool
  | .list _ => true
  | .dict _ => true
  | _ => false

/-- "extra element" entries for the tail of the actual sequence. -/
def diffExtra : List PyVal → String → Nat → List String
  | [], _, _ => []
  | a :: as, path, i =>
    (path ++ "[" ++ toString i ++ "] ‚Üí extra element: " ++ pyStr a) :: diffExtra as path (i + 1)

/-- "missing element" entries for the tail of the expected sequence. -/
def diffMissing : List PyVal → String → Nat → List String
  | [], _, _ => []
  | e :: es, path, i =>
    (path ++ "[" ++ toString i ++ "] ‚Üí missing element: " ++ pyStr e) :: diffMissing es path (i + 1)

/-- "extra key" entries for keys of the actual mapping absent from the
expected one. -/
def diffExtraKeys : List (String × PyVal) → List (String × PyVal) → String → List String
  | [], _, _ => []
  | (k, av) :: rest, ed, path =>
    (if keyMem k ed then [] else [path ++ "." ++ k ++ " ‚Üí extra key: " ++ pyStr av])
      ++ diffExtraKeys rest ed path

mutual

/-- `TestRunner.find_difference(actual, expected, path)`: ordered,
path-qualified difference strings; purely diagnostic. -/
def findDifference (actual expected : PyVal) (path : String) : List String :=
  match actual, expected with
  | .list as, .list es =>
    (if es.length ≠ as.length then
      [path ++ " ‚Üí different number of elements: expected " ++ toString es.length ++
        ", got " ++ toString as.length]
     else [])
    ++ diffPairs as es path 0
    ++ diffExtra (as.drop (min es.length as.length)) path (min es.length as.length)
    ++ diffMissing (es.drop (min es.length as.length)) path (min es.length as.length)
  | .dict ad, .dict ed => diffSharedKeys ed ad path ++ diffExtraKeys ad ed path
  | a, e =>
    if valuesEqual a e then []
    else [path ++ " ‚Üí expected " ++ pyStr e ++ ", got " ++ pyStr a]

/-- The per-index loop over `range(min_len)`: recursive diff for container
pairs, a leaf entry otherwise, nothing when the values compare equal. -/
def diffPairs : List PyVal → List PyVal → String → Nat → List String
  | a :: as, e :: es, path, i =>
    (if valuesEqual a e then []
     else if isContainer e && isContainer a then
       findDifference a e (path ++ "[" ++ toString i ++ "]")
     else
       [path ++ "[" ++ toString i ++ "] ‚Üí expected " ++ pyStr e ++ ", got " ++ pyStr a])
    ++ diffPairs as es path (i + 1)
  | _, _, _, _ => []

/-- The loop `for key in expected`. -/
def diffSharedKeys : List (String × PyVal) → List (String × PyVal) → String → List String
  | [], _, _ => []
  | (k, ev) :: rest, ad, path => diffKeyIn k ev ad path ++ diffSharedKeys rest ad path

/-- One expected key against the actual mapping: missing-key entry when
absent, else (at its first binding, which is unique in the harness's
mappings) a recursive or leaf diff when the values differ. -/
def diffKeyIn (k : String) (ev : PyVal) : List (String × PyVal) → String → List String
  | [], path => [path ++ "." ++ k ++ " ‚Üí missing key"]
  | (k2, av) :: rest, path =>
    if k2 == k then
      if valuesEqual av ev then []
      else if isContainer ev && isContainer av then findDifference av ev (path ++ "." ++ k)
      else [path ++ "." ++ k ++ " ‚Üí expected " ++ pyStr ev ++ ", got " ++ pyStr av]
    else diffKeyIn k ev rest path

end

/-! ## Signature allow-list and `validate_signature` -/

/-- `TestRunner.ALLOWED_SIGNATURES`, in source order. -/
def allowedSignatures : List TypeDesc := [
  .prim .string,
  .prim .boolean,
  .prim .integer,
  .prim .float,
  .array (.prim .string),
  .array (.prim .boolean),
  .array (.prim .integer),
  .array (.prim .float),
  .array (.array (.prim .string)),
  .array (.array (.prim .boolean)),
  .array (.array (.prim .integer)),
  .array (.hash (.prim .string)),
  .array (.hash (.prim .boolean)),
  .array (.hash (.prim .integer)),
  .array (.array (.array (.prim .string))),
  .array (.array (.array (.prim .integer))),
  .array (.array (.array (.prim .boolean))),
  .array (.array (.hash (.prim .string))),
  .array (.array (.hash (.prim .integer))),
  .array (.array (.hash (.prim .boolean))),
  .array (.hash (.hash (.prim .string))),
  .array (.hash (.hash (.prim .integer))),
  .array (.hash (.hash (.prim .boolean))),
  .array (.hash (.array (.prim .string))),
  .array (.hash (.array (.prim .integer))),
  .array (.hash (.array (.prim .boolean))),
  .array (.hash (.hash (.hash (.array (.prim .string))))),
  .array (.hash (.hash (.hash (.array (.prim .integer))))),
  .array (.hash (.hash (.hash (.array (.prim .boolean))))),
  .hash (.prim .string),
  .hash (.prim .boolean),
  .hash (.prim .integer),
  .hash (.prim .float),
  .hash (.hash (.prim .string)),
  .hash (.hash (.prim .integer)),
  .hash (.hash (.prim .boolean))]

/-- `TestRunner.validate_signature`. -/
def validateSignature (sig : TypeDesc) (sigType : String) : Except String Unit :=
  if sig ∈ allowedSignatures then .ok ()
  else .error ("Invalid " ++ sigType ++ ": " ++ sigRepr sig ++
    " is not in the allowed signatures list")

/-! ## Task loading (`load_toml_data` and `check_assert_types`) -/

/-- A task's `input_signature` field: a single signature dict or a list of
per-position signature dicts; absence is `Option.none` at the use site. -/
inductive InputSig where
  | single : TypeDesc → InputSig
  | multi : List TypeDesc → InputSig

/-- One entry of `asserts` (also the `TestCase` dataclass: `load_toml_data`
copies `arguments` and `expected` into it unchanged). -/
structure TestCase where
  arguments : List PyVal
  expected : PyVal

/-- The fields of a parsed task record that `load_toml_data` and
`check_assert_types` read.  `solution` is `data.get("solution", "")`, so a
missing field and an empty string coincide, as in the source. -/
structure TaskData where
  name : Option String
  input_signature : Option InputSig
  output_signature : Option TypeDesc
  asserts : List TestCase
  solution : String

structure TestResult where
  passed : Bool
  actual : PyVal
  expected : PyVal
  arguments : List PyVal
deriving Repr

def validateSigList : List TypeDesc → Except String Unit
  | [] => .ok ()
  | t :: rest =>
    match validateSignature t "input_signature" with
    | .error e => .error e
    | .ok () => validateSigList rest

def validateInputSig : Option InputSig → Except String Unit
  | Option.none => .ok ()
  | some (.single t) => validateSignature t "input_signature"
  | some (.multi ts) => validateSigList ts

/-- The `zip(args, input_sig)` loop of `check_assert_types`: positional type
check then bounds check, 1-based argument numbering in messages. -/
def checkArgsMulti (displayName : String) (idx : Nat) :
    List (TypeDesc × PyVal) → Nat → Except String Unit
  | [], _ => .ok ()
  | (sig, arg) :: rest, i =>
    match typeMatches sig arg ("arguments[" ++ toString (i - 1) ++ "]") with
    | (false, err) =>
      .error ("[" ++ displayName ++ "] Assert #" ++ toString idx ++ ": argument " ++
        toString i ++ " type mismatch: " ++ err.getD "" ++ " (wanted " ++
        signatureToStr sig ++ ")")
    | (true, _) =>
      match checkIntBounds sig arg ("arguments[" ++ toString (i - 1) ++ "]") with
      | .error e => .error e
      | .ok () => checkArgsMulti displayName idx rest (i + 1)

/-- `check_assert_types` for one assert: arity, per-argument type and bounds
checks against the input signature, then the expected value against the
output signature. -/
def checkOneAssert (inputSig : Option InputSig) (outSig : TypeDesc)
    (displayName : String) (idx : Nat) (a : TestCase) : Except String Unit := do
  (match inputSig with
   | Option.none =>
     if a.arguments.length ≠ 0 then
       Except.error ("[" ++ displayName ++ "] Assert #" ++ toString idx ++ ": has " ++
         toString a.arguments.length ++ " argument(s) but no input_signature is defined")
     else .ok ()
   | some (.multi sigs) =>
     if a.arguments.length ≠ sigs.length then
       Except.error ("[" ++ displayName ++ "] Assert #" ++ toString idx ++ ": expected " ++
         toString sigs.length ++ " argument(s) per input_signature, got " ++
         toString a.arguments.length)
     else checkArgsMulti displayName idx (sigs.zip a.arguments) 1
   | some (.single sig) =>
     if a.arguments.length ≠ 1 then
       Except.error ("[" ++ displayName ++ "] Assert #" ++ toString idx ++
         ": expected 1 argument per input_signature, got " ++ toString a.arguments.length)
     else
       match typeMatches sig (a.arguments.headD .none) "arguments[0]" with
       | (false, err) =>
         Except.error ("[" ++ displayName ++ "] Assert #" ++ toString idx ++
           ": argument 1 type mismatch: " ++ err.getD "" ++ " (wanted " ++
           signatureToStr sig ++ ")")
       | (true, _) => checkIntBounds sig (a.arguments.headD .none) "arguments[0]")
  match typeMatches outSig a.expected "expected" with
  | (false, err) =>
    Except.error ("[" ++ displayName ++ "] Assert #" ++ toString idx ++
      ": expected value type mismatch: " ++ err.getD "" ++ " (wanted " ++
      signatureToStr outSig ++ ")")
  | (true, _) => checkIntBounds outSig a.expected "expected"

def checkAssertsLoop (inputSig : Option InputSig) (outSig : TypeDesc)
    (displayName : String) : Nat → List TestCase → Except String Unit
  | _, [] => .ok ()
  | idx, a :: rest => do
    checkOneAssert inputSig outSig displayName idx a
    checkAssertsLoop inputSig outSig displayName (idx + 1) rest

/-- `TestRunner.check_assert_types`: requires an output signature, then
validates every assert (1-based indexing) against the signatures. -/
def checkAssertTypes (data : TaskData) (displayName : String) : Except String Unit :=
  match data.output_signature with
  | Option.none => .error "Missing output_signature"
  | some outSig => checkAssertsLoop data.input_signature outSig displayName 1 data.asserts

/-- `TestRunner.load_toml_data` after TOML decoding: validate the declared
signatures against the allow-list, build the test cases, pre-validate the
asserts, apply the assert-count policy (warning under 30, hard error at 0,
both only when `skip_assert_count` is off), and require a nonempty solution.
Returns (test cases, solution code, task name). -/
def loadTomlData (skipAssertCount : Bool) (displayName basename : String)
    (data : TaskData) : Except String (List TestCase × String × String) := do
  let taskName := data.name.getD basename
  validateInputSig data.input_signature
  (match data.output_signature with
   | some t => validateSignature t "output_signature"
   | Option.none => .ok ())
  let testCases := data.asserts
  checkAssertTypes data displayName
  (if skipAssertCount = false ∧ testCases.length < 30 then
    -- the warning print for fewer than 30 asserts is not an error
    if testCases.length = 0 then Except.error "NO ASSERTS FOUND" else .ok ()
   else .ok ())
  if data.solution = "" then Except.error "THERE IS NO SOLUTION"
  else return (testCases, data.solution, taskName)

/-! ## Run aggregator (`run_tests`) -/

/-- One assertion's execution inside the per-assertion fault boundary of
`run_tests`: invoke the solution (`solutionFn` is the callable produced by
`create_solution_function`; an invocation fault is its `.error`), decide
pass/fail via the top-level JSON coercion and `values_equal`, then enforce
the runtime output type against the output signature. -/
def runCase (outputSig : Option TypeDesc) (solutionFn : List PyVal → Except String PyVal)
    (tc : TestCase) : TestResult :=
  match solutionFn tc.arguments with
  | .error e => ⟨false, .str e, tc.expected, tc.arguments⟩
  | .ok actual =>
    let passed :=
      match tryJsonContainer tc.expected, tryJsonContainer actual with
      | some eo, some ao => valuesEqual ao eo
      | _, _ => valuesEqual actual tc.expected
    match outputSig with
    | some sig =>
      match typeMatches sig actual "actual" with
      | (true, _) => ⟨passed, actual, tc.expected, tc.arguments⟩
      | (false, err) =>
        ⟨false,
         .str ("TYPE ERROR: " ++ err.getD "" ++ " ; value=" ++ formatValue actual 0),
         tc.expected, tc.arguments⟩
    | Option.none => ⟨passed, actual, tc.expected, tc.arguments⟩

def listPre : List Char → List Char → Bool
  | [], _ => true
  | _ :: _, [] => false
  | a :: as, b :: bs => a == b && listPre as bs

def listSub (pat : List Char) : List Char → Bool
  | [] => pat.isEmpty
  | b :: bs => listPre pat (b :: bs) || listSub pat bs

/-- Python `pat in s` on strings: substring containment. -/
def strContains (s pat : String) : Bool := listSub pat.data s.data

/-- The two error-message tests in `run_tests`'s exception handler that make
an error fatal for the whole run. -/
def criticalError (msg : String) : Bool :=
  strContains msg "Solution code does not define a 'solution' function" ||
    strContains msg "THERE IS NO SOLUTION"

/-- What processing one task file produced: its test results and task name,
or the message of the exception that aborted the file. -/
inductive FileOutcome where
  | success : List TestResult → String → FileOutcome
  | failure : String → FileOutcome

/-- How `run_tests` ended: `earlyExit` is the `sys.exit(1)` inside the loop
(remaining files never processed), `exitError` the `sys.exit(1)` after the
loop when some file failed to load, `finished` the normal return of the
results mapping. -/
inductive RunResult where
  | earlyExit : List (String × List TestResult × String) → RunResult
  | exitError : List (String × List TestResult × String) → RunResult
  | finished : List (String × List TestResult × String) → RunResult

/-- The file loop of `run_tests` over the discovered files, each already
reduced to its `FileOutcome`; `hasErrors` and `acc` are the `has_errors`
flag and the `results` dict. -/
def runTestsAux (hasErrors : Bool) (acc : List (String × List TestResult × String)) :
    List (String × FileOutcome) → RunResult
  | [] => if hasErrors then .exitError acc else .finished acc
  | (dn, .success res tn) :: rest => runTestsAux hasErrors (acc ++ [(dn, res, tn)]) rest
  | (_, .failure msg) :: rest =>
    if criticalError msg then .earlyExit acc else runTestsAux true acc rest

def runTests (files : List (String × FileOutcome)) : RunResult := runTestsAux false [] files

/-- The per-file body of `run_tests`: load the file, then run every test
case with the output signature from the cached task record; any load
exception becomes the file's failure message. -/
def processFile (skipAssertCount : Bool) (displayName basename : String) (data : TaskData)
    (solutionFn : List PyVal → Except String PyVal) : FileOutcome :=
  match loadTomlData skipAssertCount displayName basename data with
  | .error e => .failure e
  | .ok (cases, _, taskName) =>
    .success (cases.map (runCase data.output_signature solutionFn)) taskName

/-! ## Well-formedness: the duplicate-free mappings the harness builds

TOML tables, JSON objects and Python dicts cannot hold a key twice; `wf`
states that restriction for the association-list embedding.  On `wf` values
`pyEq` agrees with Python `==` exactly. -/

def keysNodup : List (String × PyVal) → Bool
  | [] => true
  | (k, _) :: rest => !keyMem k rest && keysNodup rest

mutual

def wf : PyVal → Bool
  | .list l => wfList l
  | .dict d => keysNodup d && wfDict d
  | _ => true

def wfList : List PyVal → Bool
  | [] => true
  | x :: xs => wf x && wfList xs

def wfDict : List (String × PyVal) → Bool
  | [] => true
  | (_, v) :: rest => wf v && wfDict rest

end

mutual

/-- No `nan` float leaf anywhere in the value.  Python `==` on `nan` is
irreflexive, so the equality engine is reflexive exactly on the nan-free
values. -/
def nanFree : PyVal → Bool
  | .float .nan => false
  | .list l => nanFreeList l
  | .dict d => nanFreeDict d
  | _ => true

def nanFreeList : List PyVal → Bool
  | [] => true
  | x :: xs => nanFree x && nanFreeList xs

def nanFreeDict : List (String × PyVal) → Bool
  | [] => true
  | (_, v) :: rest => nanFree v && nanFreeDict rest

end

/-! ### Association-list lemmas -/

theorem pyEqFind_eq_lookup (k : String) (v : PyVal) (b : List (String × PyVal)) :
    pyEqFind k v b = (match lookupFirst k b with
      | some w => pyEq v w
      | Option.none => false) := by
  induction b with
  | nil => simp [pyEqFind, lookupFirst]
  | cons hd tl ih =>
    obtain ⟨k2, w⟩ := hd
    by_cases h : (k2 == k)
    · simp [pyEqFind, lookupFirst, h]
    · simp only [pyEqFind, lookupFirst, h]
      simpa using ih

theorem pyEqDict_eq_true_iff (a b : List (String × PyVal)) :
    pyEqDict a b = true ↔ ∀ kv ∈ a, pyEqFind kv.1 kv.2 b = true := by
  induction a with
  | nil => simp [pyEqDict]
  | cons hd tl ih =>
    obtain ⟨k, v⟩ := hd
    simp [pyEqDict, ih]

theorem keyMem_iff (k : String) (l : List (String × PyVal)) :
    keyMem k l = true ↔ ∃ kv ∈ l, kv.1 = k := by
  simp [keyMem, List.any_eq_true]

theorem lookupFirst_isSome_of_keyMem {k : String} {l : List (String × PyVal)}
    (h : keyMem k l = true) : ∃ w, lookupFirst k l = some w := by
  induction l with
  | nil => simp [keyMem] at h
  | cons hd tl ih =>
    obtain ⟨k2, w⟩ := hd
    by_cases h2 : (k2 == k)
    · exact ⟨w, by simp [lookupFirst, h2]⟩
    · simp only [lookupFirst, h2, if_false]
      apply ih
      have h2f : (k2 == k) = false := by simpa using h2
      simp only [keyMem, List.any_cons, h2f, Bool.false_or] at h
      exact h

theorem lookupFirst_mem {k : String} {l : List (String × PyVal)} {w : PyVal}
    (h : lookupFirst k l = some w) : (k, w) ∈ l := by
  induction l with
  | nil => simp [lookupFirst] at h
  | cons hd tl ih =>
    obtain ⟨k2, w2⟩ := hd
    by_cases h2 : (k2 == k)
    · simp only [lookupFirst, h2, if_true, Option.some.injEq] at h
      have : k2 = k := by simpa using h2
      subst this
      subst h
      exact List.mem_cons_self _ _
    · simp only [lookupFirst, h2, if_false] at h
      exact List.mem_cons_of_mem _ (ih h)

theorem lookupFirst_eq_of_nodup {k : String} {l : List (String × PyVal)} {w : PyVal}
    (hnd : keysNodup l = true) (h : (k, w) ∈ l) : lookupFirst k l = some w := by
  induction l with
  | nil => simp at h
  | cons hd tl ih =>
    obtain ⟨k2, w2⟩ := hd
    simp only [keysNodup, Bool.and_eq_true, Bool.not_eq_true'] at hnd
    rcases List.mem_cons.mp h with heq | hmem
    · injection heq with e1 e2
      subst e1
      subst e2
      simp [lookupFirst]
    · by_cases h2 : (k2 == k)
      · exfalso
        have hk : k2 = k := by simpa using h2
        subst hk
        have : keyMem k2 tl = true := (keyMem_iff _ _).mpr ⟨(k2, w), hmem, rfl⟩
        rw [this] at hnd
        exact absurd hnd.1 (by simp)
      · simp only [lookupFirst, h2, if_false]
        exact ih hnd.2 hmem

theorem keyMem_of_mem {k : String} {w : PyVal} {l : List (String × PyVal)}
    (h : (k, w) ∈ l) : keyMem k l = true :=
  (keyMem_iff _ _).mpr ⟨(k, w), h, rfl⟩

theorem wfList_mem {l : List PyVal} {x : PyVal} (hl : wfList l = true) (hx : x ∈ l) :
    wf x = true := by
  induction l with
  | nil => simp at hx
  | cons hd tl ih =>
    simp only [wfList, Bool.and_eq_true] at hl
    rcases List.mem_cons.mp hx with rfl | hmem
    · exact hl.1
    · exact ih hl.2 hmem

theorem wfDict_mem {d : List (String × PyVal)} {kv : String × PyVal}
    (hd : wfDict d = true) (hkv : kv ∈ d) : wf kv.2 = true := by
  induction d with
  | nil => simp at hkv
  | cons hd2 tl ih =>
    obtain ⟨k, v⟩ := hd2
    simp only [wfDict, Bool.and_eq_true] at hd
    rcases List.mem_cons.mp hkv with rfl | hmem
    · exact hd.1
    · exact ih hd.2 hmem

theorem nanFreeList_mem {l : List PyVal} {x : PyVal} (hl : nanFreeList l = true)
    (hx : x ∈ l) : nanFree x = true := by
  induction l with
  | nil => simp at hx
  | cons hd tl ih =>
    simp only [nanFreeList, Bool.and_eq_true] at hl
    rcases List.mem_cons.mp hx with rfl | hmem
    · exact hl.1
    · exact ih hl.2 hmem

theorem nanFreeDict_mem {d : List (String × PyVal)} {kv : String × PyVal}
    (hd : nanFreeDict d = true) (hkv : kv ∈ d) : nanFree kv.2 = true := by
  induction d with
  | nil => simp at hkv
  | cons hd2 tl ih =>
    obtain ⟨k, v⟩ := hd2
    simp only [nanFreeDict, Bool.and_eq_true] at hd
    rcases List.mem_cons.mp hkv with rfl | hmem
    · exact hd.1
    · exact ih hd.2 hmem

theorem sizeOf_mem_listval {l : List PyVal} {x : PyVal} (h : x ∈ l) :
    sizeOf x < sizeOf (PyVal.list l) := by
  have := List.sizeOf_lt_of_mem h
  simp only [PyVal.list.sizeOf_spec]
  omega

theorem sizeOf_mem_dictval {d : List (String × PyVal)} {kv : String × PyVal} (h : kv ∈ d) :
    sizeOf kv.2 < sizeOf (PyVal.dict d) := by
  have h1 := List.sizeOf_lt_of_mem h
  obtain ⟨k, v⟩ := kv
  simp only [PyVal.dict.sizeOf_spec]
  simp only [Prod.mk.sizeOf_spec] at h1
  omega

/-! ### Symmetry and reflexivity of the embedded Python `==` -/

theorem pyEqList_symm_aux (xs ys : List PyVal)
    (h : ∀ x ∈ xs, ∀ y ∈ ys, pyEq x y = true → pyEq y x = true)
    (hxy : pyEqList xs ys = true) : pyEqList ys xs = true := by
  induction xs generalizing ys with
  | nil =>
    cases ys with
    | nil => simpa using hxy
    | cons y ys => simp [pyEqList] at hxy
  | cons x xs ih =>
    cases ys with
    | nil => simp [pyEqList] at hxy
    | cons y ys =>
      simp only [pyEqList, Bool.and_eq_true] at hxy ⊢
      refine ⟨h x (by simp) y (by simp) hxy.1, ?_⟩
      exact ih ys
        (fun a ha b hb => h a (List.mem_cons_of_mem x ha) b (List.mem_cons_of_mem y hb))
        hxy.2

theorem pyEqDictFull_symm_aux (a b : List (String × PyVal))
    (h : ∀ kv ∈ a, ∀ kw ∈ b, pyEq kv.2 kw.2 = true → pyEq kw.2 kv.2 = true)
    (hnb : keysNodup b = true)
    (hab : (pyEqDict a b && b.all fun e => keyMem e.1 a) = true) :
    (pyEqDict b a && a.all fun e => keyMem e.1 b) = true := by
  rw [Bool.and_eq_true] at hab
  obtain ⟨h1, h2⟩ := hab
  rw [Bool.and_eq_true]
  constructor
  · rw [pyEqDict_eq_true_iff]
    intro kw hkw
    have hmem : keyMem kw.1 a = true := List.all_eq_true.mp h2 kw hkw
    obtain ⟨v, hv⟩ := lookupFirst_isSome_of_keyMem hmem
    have hva : (kw.1, v) ∈ a := lookupFirst_mem hv
    have hfind := (pyEqDict_eq_true_iff a b).mp h1 (kw.1, v) hva
    rw [pyEqFind_eq_lookup] at hfind
    have hkwb : (kw.1, kw.2) ∈ b := by simpa using hkw
    have hlb : lookupFirst kw.1 b = some kw.2 := lookupFirst_eq_of_nodup hnb hkwb
    rw [hlb] at hfind
    have hsym := h (kw.1, v) hva kw hkw hfind
    rw [pyEqFind_eq_lookup, hv]
    exact hsym
  · rw [List.all_eq_true]
    intro kv hkv
    have hfind := (pyEqDict_eq_true_iff a b).mp h1 kv hkv
    rw [pyEqFind_eq_lookup] at hfind
    cases hl : lookupFirst kv.1 b with
    | none => rw [hl] at hfind; simp at hfind
    | some w => exact keyMem_of_mem (lookupFirst_mem hl)

theorem pyFloatEq_comm (a b : PyFloat) : pyFloatEq a b = pyFloatEq b a := by
  cases a <;> cases b <;> simp only [pyFloatEq]
  rename_i q1 q2
  by_cases h : q1 = q2
  · subst h
    rfl
  · rw [beq_false_of_ne h, beq_false_of_ne (Ne.symm h)]

theorem pyEq_symm_true_aux :
    ∀ n (a b : PyVal), sizeOf a + sizeOf b ≤ n →
      wf a = true → wf b = true → pyEq a b = true → pyEq b a = true := by
  intro n
  induction n using Nat.strong_induction_on with
  | _ n ihn =>
    intro a b hn ha hb hab
    cases a <;> cases b <;> simp only [pyEq] at hab ⊢
    all_goals try exact hab
    all_goals try (rw [pyFloatEq_comm] at hab; exact hab)
    all_goals try (simp only [beq_iff_eq] at hab ⊢; exact hab.symm)
    case list.list xs ys =>
      simp only [wf] at ha hb
      refine pyEqList_symm_aux xs ys ?_ hab
      intro x hx y hy hxy
      have hlt : sizeOf x + sizeOf y < n :=
        lt_of_lt_of_le
          (Nat.add_lt_add (sizeOf_mem_listval hx) (sizeOf_mem_listval hy)) hn
      exact ihn _ hlt x y le_rfl (wfList_mem ha hx) (wfList_mem hb hy) hxy
    case dict.dict ad bd =>
      simp only [wf, Bool.and_eq_true] at ha hb
      refine pyEqDictFull_symm_aux ad bd ?_ hb.1 hab
      intro kv hkv kw hkw hvw
      have hlt : sizeOf kv.2 + sizeOf kw.2 < n :=
        lt_of_lt_of_le
          (Nat.add_lt_add (sizeOf_mem_dictval hkv) (sizeOf_mem_dictval hkw)) hn
      exact ihn _ hlt kv.2 kw.2 le_rfl (wfDict_mem ha.2 hkv) (wfDict_mem hb.2 hkw) hvw

theorem pyEq_symm_true {a b : PyVal} (ha : wf a = true) (hb : wf b = true)
    (hab : pyEq a b = true) : pyEq b a = true :=
  pyEq_symm_true_aux (sizeOf a + sizeOf b) a b le_rfl ha hb hab

theorem pyEq_comm (a b : PyVal) (ha : wf a = true) (hb : wf b = true) :
    pyEq a b = pyEq b a := by
  cases hab : pyEq a b with
  | true => exact (pyEq_symm_true ha hb hab).symm
  | false =>
    cases hba : pyEq b a with
    | true => rw [pyEq_symm_true hb ha hba] at hab; simp at hab
    | false => rfl

theorem pyEqList_refl_aux (xs : List PyVal) (h : ∀ x ∈ xs, pyEq x x = true) :
    pyEqList xs xs = true := by
  induction xs with
  | nil => simp [pyEqList]
  | cons x xs ih =>
    simp only [pyEqList, Bool.and_eq_true]
    exact ⟨h x (by simp), ih (fun a ha => h a (List.mem_cons_of_mem x ha))⟩

theorem pyEq_refl_aux :
    ∀ n (a : PyVal), sizeOf a ≤ n → wf a = true → nanFree a = true → pyEq a a = true := by
  intro n
  induction n using Nat.strong_induction_on with
  | _ n ihn =>
    intro a hn ha hf
    cases a with
    | str s => simp [pyEq]
    | int m => simp [pyEq]
    | bool b => simp [pyEq]
    | float q =>
      cases q with
      | finite x => simp [pyEq, pyFloatEq]
      | nan => simp [nanFree] at hf
      | inf => simp [pyEq, pyFloatEq]
      | ninf => simp [pyEq, pyFloatEq]
    | none => simp [pyEq]
    | list xs =>
      simp only [wf] at ha
      simp only [nanFree] at hf
      simp only [pyEq]
      apply pyEqList_refl_aux
      intro x hx
      exact ihn _ (lt_of_lt_of_le (sizeOf_mem_listval hx) hn) x le_rfl
        (wfList_mem ha hx) (nanFreeList_mem hf hx)
    | dict d =>
      simp only [wf, Bool.and_eq_true] at ha
      simp only [nanFree] at hf
      simp only [pyEq, Bool.and_eq_true]
      constructor
      · rw [pyEqDict_eq_true_iff]
        intro kv hkv
        rw [pyEqFind_eq_lookup]
        have hl : lookupFirst kv.1 d = some kv.2 :=
          lookupFirst_eq_of_nodup ha.1 (by simpa using hkv)
        rw [hl]
        exact ihn _ (lt_of_lt_of_le (sizeOf_mem_dictval hkv) hn) kv.2 le_rfl
          (wfDict_mem ha.2 hkv) (nanFreeDict_mem hf hkv)
      · rw [List.all_eq_true]
        intro kv hkv
        exact keyMem_of_mem (show (kv.1, kv.2) ∈ d by simpa using hkv)

theorem pyEq_refl (v : PyVal) (h : wf v = true) (hf : nanFree v = true) :
    pyEq v v = true :=
  pyEq_refl_aux (sizeOf v) v le_rfl h hf

/-! ### `normalize_output` produces well-formed values -/

theorem keyMem_insertAssoc (j k : String) (v : PyVal) (l : List (String × PyVal)) :
    keyMem j (insertAssoc k v l) = (keyMem j l || (k == j)) := by
  induction l with
  | nil => simp [insertAssoc, keyMem]
  | cons hd tl ih =>
    obtain ⟨k2, w⟩ := hd
    by_cases h : k2 = k
    · subst h
      simp only [insertAssoc, if_pos rfl, keyMem, List.any_cons]
      cases hkj : (k2 == j) <;> simp [hkj]
    · simp only [insertAssoc, if_neg h, keyMem, List.any_cons] at ih ⊢
      rw [ih]
      cases (k2 == j) <;> cases (k == j) <;> simp

theorem keysNodup_insertAssoc (k : String) (v : PyVal) {l : List (String × PyVal)}
    (h : keysNodup l = true) : keysNodup (insertAssoc k v l) = true := by
  induction l with
  | nil => simp [insertAssoc, keysNodup, keyMem]
  | cons hd tl ih =>
    obtain ⟨k2, w⟩ := hd
    simp only [keysNodup, Bool.and_eq_true, Bool.not_eq_true'] at h
    by_cases hk : k2 = k
    · subst hk
      simp only [insertAssoc, if_pos rfl, keysNodup, Bool.and_eq_true, Bool.not_eq_true']
      exact ⟨h.1, h.2⟩
    · simp only [insertAssoc, if_neg hk, keysNodup, Bool.and_eq_true, Bool.not_eq_true']
      refine ⟨?_, ih h.2⟩
      rw [keyMem_insertAssoc]
      have hkj : (k == k2) = false := by
        simpa using Ne.symm hk
      simp [h.1, hkj]

theorem wfDict_insertAssoc (k : String) (v : PyVal) {l : List (String × PyVal)}
    (hv : wf v = true) (h : wfDict l = true) : wfDict (insertAssoc k v l) = true := by
  induction l with
  | nil => simp [insertAssoc, wfDict, hv]
  | cons hd tl ih =>
    obtain ⟨k2, w⟩ := hd
    simp only [wfDict, Bool.and_eq_true] at h
    by_cases hk : k2 = k
    · subst hk
      simp only [insertAssoc, if_pos rfl, wfDict, Bool.and_eq_true]
      exact ⟨hv, h.2⟩
    · simp only [insertAssoc, if_neg hk, wfDict, Bool.and_eq_true]
      exact ⟨h.1, ih h.2⟩

theorem normDict_wf :
    ∀ (d acc : List (String × PyVal)),
      (∀ kv ∈ d, wf (normalizeOutput kv.2) = true) →
      keysNodup acc = true → wfDict acc = true →
      keysNodup (normDict d acc) = true ∧ wfDict (normDict d acc) = true := by
  intro d
  induction d with
  | nil =>
    intro acc _ h1 h2
    simpa [normDict] using ⟨h1, h2⟩
  | cons hd tl ih =>
    obtain ⟨k, v⟩ := hd
    intro acc hall h1 h2
    simp only [normDict]
    exact ih _ (fun kv hkv => hall kv (List.mem_cons_of_mem _ hkv))
      (keysNodup_insertAssoc _ _ h1)
      (wfDict_insertAssoc _ _ (hall (k, v) (by simp)) h2)

theorem wfList_normList {l : List PyVal} (h : ∀ x ∈ l, wf (normalizeOutput x) = true) :
    wfList (normList l) = true := by
  induction l with
  | nil => simp [normList, wfList]
  | cons x xs ih =>
    simp only [normList, wfList, Bool.and_eq_true]
    exact ⟨h x (by simp), ih (fun a ha => h a (List.mem_cons_of_mem x ha))⟩

theorem wf_norm_aux : ∀ n (v : PyVal), sizeOf v ≤ n → wf (normalizeOutput v) = true := by
  intro n
  induction n using Nat.strong_induction_on with
  | _ n ihn =>
    intro v hn
    cases v with
    | str s => simp [normalizeOutput, wf]
    | int m => simp [normalizeOutput, wf]
    | bool b => simp [normalizeOutput, wf]
    | float q => simp [normalizeOutput, wf]
    | none => simp [normalizeOutput, wf]
    | list l =>
      simp only [normalizeOutput, wf]
      apply wfList_normList
      intro x hx
      exact ihn _ (lt_of_lt_of_le (sizeOf_mem_listval hx) hn) x le_rfl
    | dict d =>
      simp only [normalizeOutput, wf, Bool.and_eq_true]
      exact normDict_wf d []
        (fun kv hkv => ihn _ (lt_of_lt_of_le (sizeOf_mem_dictval hkv) hn) kv.2 le_rfl)
        (by simp [keysNodup]) (by simp [wfDict])

theorem wf_norm (v : PyVal) : wf (normalizeOutput v) = true :=
  wf_norm_aux (sizeOf v) v le_rfl

theorem bothDigitStrings_comm (a e : PyVal) : bothDigitStrings a e = bothDigitStrings e a := by
  cases a <;> cases e <;> simp [bothDigitStrings, Bool.and_comm]

theorem valuesEqual_refl (v : PyVal) (h : wf v = true) (hf : nanFree v = true) :
    valuesEqual v v = true := by
  simp [valuesEqual, pyEq_refl v h hf]

theorem valuesEqual_comm (a b : PyVal) (ha : wf a = true) (hb : wf b = true) :
    valuesEqual a b = valuesEqual b a := by
  simp only [valuesEqual]
  rw [pyEq_comm a b ha hb, bothDigitStrings_comm,
    pyEq_comm (normalizeOutput a) (normalizeOutput b) (wf_norm a) (wf_norm b)]

/-! ### Coercion lemmas -/

theorem tryJsonContainer_spec {v j : PyVal} (h : tryJsonContainer v = some j) :
    isContainer j = true ∧ ∃ s, v = PyVal.str s ∧ jsonParse s = some j := by
  cases v <;> simp only [tryJsonContainer] at h
  all_goals try exact absurd h (by simp)
  case str s =>
    split at h
    · injection h with h2
      subst h2
      rename_i l heq
      exact ⟨rfl, s, rfl, heq⟩
    · injection h with h2
      subst h2
      rename_i d heq
      exact ⟨rfl, s, rfl, heq⟩
    · exact absurd h (by simp)

theorem coerce_eq_int_iff (v : PyVal) (n : Int) :
    coerceForTypecheck v = PyVal.int n ↔ v = PyVal.int n := by
  constructor
  · intro h
    unfold coerceForTypecheck at h
    cases hj : tryJsonContainer v with
    | none => rw [hj] at h; exact h
    | some j =>
      rw [hj] at h
      obtain ⟨hc, _⟩ := tryJsonContainer_spec hj
      have hje := h
      simp only [] at hje
      rw [hje] at hc
      simp [isContainer] at hc
  · intro h
    subst h
    rfl

theorem coerce_eq_bool_iff (v : PyVal) (b : Bool) :
    coerceForTypecheck v = PyVal.bool b ↔ v = PyVal.bool b := by
  constructor
  · intro h
    unfold coerceForTypecheck at h
    cases hj : tryJsonContainer v with
    | none => rw [hj] at h; exact h
    | some j =>
      rw [hj] at h
      obtain ⟨hc, _⟩ := tryJsonContainer_spec hj
      have hje := h
      simp only [] at hje
      rw [hje] at hc
      simp [isContainer] at hc
  · intro h
    subst h
    rfl

theorem coerce_idem (v : PyVal) :
    coerceForTypecheck (coerceForTypecheck v) = coerceForTypecheck v := by
  cases hj : tryJsonContainer v with
  | none =>
    have h1 : coerceForTypecheck v = v := by simp [coerceForTypecheck, hj]
    rw [h1]
    exact h1
  | some j =>
    have h1 : coerceForTypecheck v = j := by simp [coerceForTypecheck, hj]
    rw [h1]
    obtain ⟨hc, _⟩ := tryJsonContainer_spec hj
    cases j <;> first | rfl | simp [isContainer] at hc

theorem typeMatches_coerce (sig : TypeDesc) (v : PyVal) (p : String) :
    typeMatches sig (coerceForTypecheck v) p = typeMatches sig v p := by
  cases sig with
  | prim k => cases k <;> simp only [typeMatches, coerce_idem]
  | array nested => simp only [typeMatches, coerce_idem]
  | hash nested => simp only [typeMatches, coerce_idem]

theorem typeMatches_int_fst (v : PyVal) (p : String) :
    (typeMatches (.prim .integer) v p).1 = true ↔
      ∃ n, coerceForTypecheck v = PyVal.int n := by
  simp only [typeMatches]
  cases coerceForTypecheck v <;> simp

theorem typeMatches_bool_fst (v : PyVal) (p : String) :
    (typeMatches (.prim .boolean) v p).1 = true ↔
      ∃ b, coerceForTypecheck v = PyVal.bool b := by
  simp only [typeMatches]
  cases coerceForTypecheck v <;> simp

/-! ## Claim theorems -/

/-- C2: at an `integer`-typed leaf the bounds check accepts an int value `n`
iff `-2147483648 ≤ n < 2147483647`; in particular `2147483646` and
`-2147483648` pass while `2147483647` and `-2147483649` raise a range
error. -/
theorem claimC2_intBounds :
    (∀ (n : Int) (p : String),
      checkIntBounds (.prim .integer) (.int n) p = .ok () ↔
        (-2147483648 ≤ n ∧ n < 2147483647)) ∧
    checkIntBounds (.prim .integer) (.int 2147483646) "value" = .ok () ∧
    checkIntBounds (.prim .integer) (.int (-2147483648)) "value" = .ok () ∧
    (∃ e, checkIntBounds (.prim .integer) (.int 2147483647) "value" = .error e) ∧
    (∃ e, checkIntBounds (.prim .integer) (.int (-2147483649)) "value" = .error e) := by
  refine ⟨?_, rfl, rfl, ⟨_, rfl⟩, ⟨_, rfl⟩⟩
  intro n p
  by_cases h : (-2147483648 ≤ n ∧ n < 2147483647)
  · simp [checkIntBounds, coerceForTypecheck, tryJsonContainer, h]
  · simp [checkIntBounds, coerceForTypecheck, tryJsonContainer, h]

/-- C6: the `integer` descriptor matches exactly the int values (never a
boolean), and the `boolean` descriptor matches exactly the boolean values
(never the ints 0 or 1). -/
theorem claimC6_intBoolMatching :
    (∀ (v : PyVal) (p : String),
      (typeMatches (.prim .integer) v p).1 = true ↔ ∃ n, v = PyVal.int n) ∧
    (∀ (v : PyVal) (p : String),
      (typeMatches (.prim .boolean) v p).1 = true ↔ ∃ b, v = PyVal.bool b) ∧
    (∀ (b : Bool) (p : String), (typeMatches (.prim .integer) (PyVal.bool b) p).1 = false) ∧
    (∀ p : String, (typeMatches (.prim .boolean) (PyVal.int 0) p).1 = false ∧
      (typeMatches (.prim .boolean) (PyVal.int 1) p).1 = false) := by
  refine ⟨?_, ?_, ?_, ?_⟩
  · intro v p
    rw [typeMatches_int_fst]
    exact exists_congr (fun n => coerce_eq_int_iff v n)
  · intro v p
    rw [typeMatches_bool_fst]
    exact exists_congr (fun b => coerce_eq_bool_iff v b)
  · intro b p
    rfl
  · intro p
    exact ⟨rfl, rfl⟩

/-- C7: a string decoding to a JSON container is substituted by its parse
before type checking — any string parsing to `[1,2,3]` matches
`array<integer>`; the substitution is applied before every check and hence
at every recursion level (checking the coerced value is checking the value,
and a nested JSON-text element satisfies a nested array descriptor). -/
theorem claimC7_jsonCoercion :
    (∀ (s p : String),
      jsonParse s = some (PyVal.list [PyVal.int 1, PyVal.int 2, PyVal.int 3]) →
      (typeMatches (.array (.prim .integer)) (PyVal.str s) p).1 = true) ∧
    (∀ (sig : TypeDesc) (v : PyVal) (p : String),
      typeMatches sig (coerceForTypecheck v) p = typeMatches sig v p) ∧
    (typeMatches (.array (.array (.prim .integer)))
      (PyVal.list [PyVal.str "[1,2]"]) "value").1 = true := by
  refine ⟨?_, typeMatches_coerce, rfl⟩
  intro s p h
  simp only [typeMatches, coerceForTypecheck, tryJsonContainer, h]
  simp [checkSeq, typeMatches, coerceForTypecheck, tryJsonContainer]

/-- C7 witness: the theorem applied to the literal `"[1,2,3]"`. -/
theorem claimC7_jsonCoercion_witness :
    (typeMatches (.array (.prim .integer)) (PyVal.str "[1,2,3]") "value").1 = true :=
  claimC7_jsonCoercion.1 "[1,2,3]" "value" rfl

/-- C10: a string whose JSON parse is a scalar is left unchanged by the
coercion — it matches `string` and fails `integer`, `boolean` and `float` —
and the only values the coercion ever changes are strings decoding to a
JSON sequence or mapping. -/
theorem claimC10_scalarStringsUncoerced :
    (∀ (s : String) (j : PyVal), jsonParse s = some j → isContainer j = false →
      coerceForTypecheck (PyVal.str s) = PyVal.str s ∧
      ∀ p : String,
        (typeMatches (.prim .string) (PyVal.str s) p).1 = true ∧
        (typeMatches (.prim .integer) (PyVal.str s) p).1 = false ∧
        (typeMatches (.prim .boolean) (PyVal.str s) p).1 = false ∧
        (typeMatches (.prim .float) (PyVal.str s) p).1 = false) ∧
    (∀ v : PyVal, coerceForTypecheck v ≠ v →
      ∃ (s : String) (j : PyVal), v = PyVal.str s ∧ jsonParse s = some j ∧
        isContainer j = true ∧ coerceForTypecheck v = j) := by
  constructor
  · intro s j h hc
    have hnone : tryJsonContainer (PyVal.str s) = Option.none := by
      simp only [tryJsonContainer, h]
      cases j <;> simp_all [isContainer]
    have hco : coerceForTypecheck (PyVal.str s) = PyVal.str s := by
      simp [coerceForTypecheck, hnone]
    refine ⟨hco, fun p => ⟨?_, ?_, ?_, ?_⟩⟩
    · simp [typeMatches, hco]
    · simp [typeMatches, hco]
    · simp [typeMatches, hco]
    · simp [typeMatches, hco]
  · intro v hne
    cases hj : tryJsonContainer v with
    | none => exact absurd (by simp [coerceForTypecheck, hj]) hne
    | some j =>
      obtain ⟨hc, s, hv, hp⟩ := tryJsonContainer_spec hj
      exact ⟨s, j, hv, hp, hc, by simp [coerceForTypecheck, hj]⟩

/-- C10 witness: the theorem applied to the scalar-decoding strings `"5"`,
`"true"` and `"1.5"`. -/
theorem claimC10_scalarStringsUncoerced_witness :
    coerceForTypecheck (PyVal.str "5") = PyVal.str "5" ∧
    (typeMatches (.prim .integer) (PyVal.str "5") "value").1 = false ∧
    coerceForTypecheck (PyVal.str "true") = PyVal.str "true" ∧
    (typeMatches (.prim .boolean) (PyVal.str "true") "value").1 = false ∧
    coerceForTypecheck (PyVal.str "1.5") = PyVal.str "1.5" ∧
    (typeMatches (.prim .float) (PyVal.str "1.5") "value").1 = false := by
  have h5 := claimC10_scalarStringsUncoerced.1 "5" (PyVal.int 5) rfl rfl
  have ht := claimC10_scalarStringsUncoerced.1 "true" (PyVal.bool true) rfl rfl
  have hf := claimC10_scalarStringsUncoerced.1 "1.5" (PyVal.float (.finite (3 / 2)))
    (by with_unfolding_all rfl) rfl
  exact ⟨h5.1, (h5.2 "value").2.1, ht.1, (ht.2 "value").2.2.1, hf.1,
    (hf.2 "value").2.2.2⟩

/-- C5: whenever the invoked solution returns a value that fails the
output-signature check, the recorded result is failed with a type-error
explanation string in place of the raw value, whatever the equality engine
would have decided. -/
theorem claimC5_outputTypeEnforced (sig : TypeDesc)
    (solutionFn : List PyVal → Except String PyVal) (tc : TestCase)
    (actual : PyVal) (err : String)
    (hrun : solutionFn tc.arguments = .ok actual)
    (htype : typeMatches sig actual "actual" = (false, some err)) :
    runCase (some sig) solutionFn tc =
      ⟨false, .str ("TYPE ERROR: " ++ err ++ " ; value=" ++ formatValue actual 0),
        tc.expected, tc.arguments⟩ := by
  simp [runCase, hrun, htype]

/-- C5 witness: a solution returning the string `"5"` against
`output_signature = integer` is recorded as failed with the type-error
text. -/
theorem claimC5_outputTypeEnforced_witness :
    runCase (some (.prim .integer)) (fun _ => .ok (.str "5")) ⟨[], .int 5⟩ =
      ⟨false, .str "TYPE ERROR: actual expected integer, got str ; value=\"5\"",
        .int 5, []⟩ := by
  have h := claimC5_outputTypeEnforced (.prim .integer) (fun _ => .ok (.str "5"))
    ⟨[], .int 5⟩ (.str "5") "actual expected integer, got str" rfl rfl
  simpa [formatValue] using h

/-- A task with an empty assertion list and everything else legal; used to
exercise the assert-count policy. -/
def zeroAssertTask : TaskData :=
  ⟨some "t", Option.none, some (.prim .integer), [], "def solution(): return 1"⟩

/-- C1 counterexample: with `skip_assert_count` set, loading a task with
zero assertions does not raise — it returns an empty test-case list — so
the zero-assertion hard error is not independent of the flag. -/
theorem claimC1_counterexample :
    loadTomlData true "tasks/t.toml" "t.toml" zeroAssertTask =
      .ok ([], "def solution(): return 1", "t") := rfl

/-- C1 (amended): with `skip_assert_count` off, loading any task whose
assertion list is empty fails with a hard error (the count check raises
`NO ASSERTS FOUND` when no earlier validation raised first); with the flag
on, the zero-assertion check is skipped along with the rest of the
assert-count policy. -/
theorem claimC1_zeroAssertsError (displayName basename : String) (data : TaskData)
    (h : data.asserts = []) :
    ∃ e, loadTomlData false displayName basename data = .error e := by
  unfold loadTomlData
  cases hv : validateInputSig data.input_signature with
  | error e => exact ⟨e, by simp [hv, Bind.bind, Except.bind]⟩
  | ok u =>
    cases ho : data.output_signature with
    | none =>
      refine ⟨"Missing output_signature", ?_⟩
      simp [hv, ho, Bind.bind, Except.bind, checkAssertTypes]
    | some outSig =>
      cases hs : validateSignature outSig "output_signature" with
      | error e => exact ⟨e, by simp [hv, ho, hs, Bind.bind, Except.bind]⟩
      | ok u2 =>
        refine ⟨"NO ASSERTS FOUND", ?_⟩
        simp [hv, ho, hs, Bind.bind, Except.bind, checkAssertTypes, h, checkAssertsLoop]

/-- C1 witness: the amended claim applied to the concrete zero-assert
task. -/
theorem claimC1_zeroAssertsError_witness :
    zeroAssertTask.asserts = [] ∧
    (∃ e, loadTomlData false "tasks/t.toml" "t.toml" zeroAssertTask = .error e) :=
  ⟨rfl, claimC1_zeroAssertsError "tasks/t.toml" "t.toml" zeroAssertTask rfl⟩

/-- A task whose only defect is an empty `solution` string. -/
def emptySolutionTask : TaskData :=
  ⟨some "t1", Option.none, some (.prim .integer), [⟨[], .int 5⟩], ""⟩

/-- C3 counterexample: a missing/empty implementation raises
`THERE IS NO SOLUTION`, and that message is in the critical set of
`run_tests`, so the run exits inside the loop before the next file is
processed — the run does not continue to the next file, and this error is
not confined to the offending file. -/
theorem claimC3_counterexample :
    loadTomlData false "a.toml" "a.toml" emptySolutionTask =
      .error "THERE IS NO SOLUTION" ∧
    runTests [("a.toml", .failure "THERE IS NO SOLUTION"),
      ("b.toml", .success [⟨true, .int 5, .int 5, []⟩] "t2")] = .earlyExit [] := by
  constructor
  · rfl
  · rfl

/-- C3 (amended): a load-time error whose message lacks the two critical
markers aborts only its own file — the loop continues with `has_errors`
set, and the run ends with `sys.exit(1)` after all files — while an error
message containing `Solution code does not define a 'solution' function`
(missing entry point) or `THERE IS NO SOLUTION` (missing/empty
implementation text) exits the whole run inside the loop. -/
theorem claimC3_runControl :
    (∀ (dn msg : String) (rest : List (String × FileOutcome)) (he : Bool)
       (acc : List (String × List TestResult × String)),
      criticalError msg = false →
      runTestsAux he acc ((dn, .failure msg) :: rest) = runTestsAux true acc rest) ∧
    (∀ (dn msg : String) (rest : List (String × FileOutcome)) (he : Bool)
       (acc : List (String × List TestResult × String)),
      criticalError msg = true →
      runTestsAux he acc ((dn, .failure msg) :: rest) = .earlyExit acc) ∧
    (∀ acc, runTestsAux true acc [] = .exitError acc) ∧
    criticalError "THERE IS NO SOLUTION" = true ∧
    criticalError "Solution code does not define a 'solution' function" = true ∧
    runTests [("a.toml", .failure "[a.toml] Assert #1: expected value type mismatch: expected expected integer, got str (wanted integer)"),
      ("b.toml", .success [] "t2")] = .exitError [("b.toml", [], "t2")] := by
  refine ⟨?_, ?_, ?_, rfl, rfl, rfl⟩
  · intro dn msg rest he acc hc
    simp [runTestsAux, hc]
  · intro dn msg rest he acc hc
    simp [runTestsAux, hc]
  · intro acc
    rfl

/-- C3 witness: the amended claim applied to a concrete non-critical
message and a concrete critical one. -/
theorem claimC3_runControl_witness :
    runTestsAux false [] [("x.toml", .failure "Missing output_signature")] =
      runTestsAux true [] [] ∧
    runTestsAux false [] [("x.toml", .failure "THERE IS NO SOLUTION"),
      ("y.toml", .success [] "t")] = .earlyExit [] :=
  ⟨claimC3_runControl.1 "x.toml" "Missing output_signature" [] false [] rfl,
   claimC3_runControl.2.1 "x.toml" "THERE IS NO SOLUTION" _ false [] rfl⟩

/-- C4 counterexample: a container holding the JSON text of a container is
not equal to the container holding the decoded structure — `["[1,2]"]`
differs from `[[1,2]]` both for `values_equal` directly and for the full
per-assertion comparison of `run_tests` — so the JSON-text substitution is
not applied at every nesting level of the equality. -/
theorem claimC4_counterexample :
    valuesEqual (.list [.str "[1,2]"]) (.list [.list [.int 1, .int 2]]) = false ∧
    (runCase Option.none (fun _ => .ok (.list [.str "[1,2]"]))
      ⟨[], .list [.list [.int 1, .int 2]]⟩).passed = false := by
  constructor
  · simp [valuesEqual, pyEq, pyEqList, bothDigitStrings, normalizeOutput, normList]
  · simp [runCase, tryJsonContainer, valuesEqual, pyEq, pyEqList, bothDigitStrings,
      normalizeOutput, normList]

/-- C4 (amended): the JSON-container-text substitution in the equality
decision happens only once, at the top level of the per-assertion comparison
in `run_tests`, and only when both the expected and the actual value are
strings parsing to JSON containers; `values_equal` itself never substitutes,
so nested JSON text is compared as text. -/
theorem claimC4_topLevelCoercionOnly :
    (∀ (solutionFn : List PyVal → Except String PyVal) (tc : TestCase) (actual : PyVal),
      solutionFn tc.arguments = .ok actual →
      (runCase Option.none solutionFn tc).passed =
        (match tryJsonContainer tc.expected, tryJsonContainer actual with
         | some eo, some ao => valuesEqual ao eo
         | _, _ => valuesEqual actual tc.expected)) ∧
    (runCase Option.none (fun _ => .ok (.str "[1, 2]")) ⟨[], .str "[1,2]"⟩).passed = true ∧
    valuesEqual (.str "[1, 2]") (.str "[1,2]") = false ∧
    (runCase Option.none (fun _ => .ok (.str "[1,2]"))
      ⟨[], .list [.int 1, .int 2]⟩).passed = false := by
  refine ⟨?_, ?_, ?_, ?_⟩
  · intro solutionFn tc actual hrun
    simp [runCase, hrun]
  · have h1 : jsonParse "[1,2]" = some (.list [.int 1, .int 2]) := rfl
    have h2 : jsonParse "[1, 2]" = some (.list [.int 1, .int 2]) := rfl
    simp [runCase, tryJsonContainer, h1, h2, valuesEqual, pyEq, pyEqList]
  · simp only [valuesEqual, pyEq, bothDigitStrings, isDigitStr, normalizeOutput]
    simp only [beq_iff_eq]
    norm_num
    constructor
    · decide
    · decide
  · simp [runCase, tryJsonContainer, valuesEqual, pyEq, pyEqList, bothDigitStrings,
      normalizeOutput, normList, lowerStr]

/-- C4 witness: the characterization applied to a concrete assertion. -/
theorem claimC4_topLevelCoercionOnly_witness :
    (runCase Option.none (fun _ => .ok (.str "[1, 2]")) ⟨[], .str "[1,2]"⟩).passed =
      (match tryJsonContainer (PyVal.str "[1,2]"), tryJsonContainer (PyVal.str "[1, 2]") with
       | some eo, some ao => valuesEqual ao eo
       | _, _ => valuesEqual (PyVal.str "[1, 2]") (PyVal.str "[1,2]")) :=
  claimC4_topLevelCoercionOnly.1 (fun _ => .ok (.str "[1, 2]")) ⟨[], .str "[1,2]"⟩
    (.str "[1, 2]") rfl

/-- C8 counterexample: Python's `float('nan')` — a value the harness can
meet through a TOML `nan` float literal (which passes the `float` type
check) or a solution returning `float('nan')` — is not equal to itself
under `values_equal`: `nan == nan` is false, the digit-string branch does
not apply, and normalization leaves floats untouched.  So the equality
relation is not reflexive on every value. -/
theorem claimC8_counterexample :
    wf (PyVal.float .nan) = true ∧
    (typeMatches (.prim .float) (PyVal.float .nan) "value").1 = true ∧
    valuesEqual (PyVal.float .nan) (PyVal.float .nan) = false := by
  refine ⟨by simp [wf], rfl, ?_⟩
  simp [valuesEqual, pyEq, pyFloatEq, bothDigitStrings, normalizeOutput]

/-- C8 (amended): the equality engine is symmetric on all well-formed
values (mappings without duplicate keys, which is every value the harness
builds) and reflexive on every well-formed value containing no NaN float
leaf; `{"A": "X"}` equals `{"a": "x"}` through case normalization; and the
digit-only strings `"007"` and `"7"` are unequal because two digit strings
are compared as literal text before normalization. -/
theorem claimC8_equalityAlgebra :
    (∀ v : PyVal, wf v = true → nanFree v = true → valuesEqual v v = true) ∧
    (∀ a b : PyVal, wf a = true → wf b = true → valuesEqual a b = valuesEqual b a) ∧
    valuesEqual (.dict [("A", .str "X")]) (.dict [("a", .str "x")]) = true ∧
    valuesEqual (.str "007") (.str "7") = false := by
  refine ⟨valuesEqual_refl, valuesEqual_comm, ?_, ?_⟩
  · have hA : lowerStr "A" = "a" := by decide
    have hX : lowerStr "X" = "x" := by decide
    have ha : lowerStr "a" = "a" := by decide
    have hx : lowerStr "x" = "x" := by decide
    simp [valuesEqual, pyEq, pyEqDict, pyEqFind, bothDigitStrings, normalizeOutput,
      normDict, insertAssoc, keyMem, hA, hX, ha, hx]
  · have h1 : pyEq (.str "007") (.str "7") = false := by
      simp [pyEq]
    have h2 : bothDigitStrings (.str "007") (.str "7") = true := by decide
    simp [valuesEqual, h1, h2]

/-- C8 witness: reflexivity and symmetry applied at concrete well-formed,
nan-free values. -/
theorem claimC8_equalityAlgebra_witness :
    wf (PyVal.list [.str "Ab", .int 2]) = true ∧
    nanFree (PyVal.list [.str "Ab", .int 2]) = true ∧
    valuesEqual (PyVal.list [.str "Ab", .int 2]) (PyVal.list [.str "Ab", .int 2]) = true ∧
    valuesEqual (PyVal.str "Ab") (PyVal.int 2) = valuesEqual (PyVal.int 2) (PyVal.str "Ab") := by
  have hw : wf (PyVal.list [.str "Ab", .int 2]) = true := by simp [wf, wfList]
  have hn : nanFree (PyVal.list [.str "Ab", .int 2]) = true := by
    simp [nanFree, nanFreeList]
  exact ⟨hw, hn, claimC8_equalityAlgebra.1 _ hw hn,
    claimC8_equalityAlgebra.2.1 (PyVal.str "Ab") (PyVal.int 2) (by simp [wf]) (by simp [wf])⟩

/-! ### Diff-engine decomposition lemmas -/

theorem diffExtra_eq_enumFrom (l : List PyVal) (path : String) (i : Nat) :
    diffExtra l path i = (List.enumFrom i l).map (fun p =>
      path ++ "[" ++ toString p.1 ++ "] ‚Üí extra element: " ++ pyStr p.2) := by
  induction l generalizing i with
  | nil => simp [diffExtra, List.enumFrom]
  | cons x xs ih => simp [diffExtra, List.enumFrom, ih]

theorem diffMissing_eq_enumFrom (l : List PyVal) (path : String) (i : Nat) :
    diffMissing l path i = (List.enumFrom i l).map (fun p =>
      path ++ "[" ++ toString p.1 ++ "] ‚Üí missing element: " ++ pyStr p.2) := by
  induction l generalizing i with
  | nil => simp [diffMissing, List.enumFrom]
  | cons x xs ih => simp [diffMissing, List.enumFrom, ih]

theorem diffPairs_eq_enumFrom (as es : List PyVal) (path : String) (i : Nat) :
    diffPairs as es path i = ((List.enumFrom i (as.zip es)).map (fun p =>
      if valuesEqual p.2.1 p.2.2 then []
      else if isContainer p.2.2 && isContainer p.2.1 then
        findDifference p.2.1 p.2.2 (path ++ "[" ++ toString p.1 ++ "]")
      else [path ++ "[" ++ toString p.1 ++ "] ‚Üí expected " ++ pyStr p.2.2 ++
        ", got " ++ pyStr p.2.1])).flatten := by
  induction as generalizing es i with
  | nil => cases es <;> simp [diffPairs, List.enumFrom]
  | cons a as ih =>
    cases es with
    | nil => simp [diffPairs, List.enumFrom]
    | cons e es => simp [diffPairs, List.enumFrom, ih, List.zip]

/-- C9: for sequences, the diff output is exactly one length-mismatch entry
(when the lengths differ) followed by the per-index entries up to the
shorter length, then one extra-element entry per index of the actual tail,
then one missing-element entry per index of the expected tail; the concrete
pair `expected=[1,2,3]`, `actual=[1,2]` yields exactly one length-mismatch
entry and one missing-element entry at index 2; and the pass/fail decision
of a test case is a function of the type matcher and the equality engine
alone, with no reference to the diff engine. -/
theorem claimC9_diffEngine :
    (∀ (as es : List PyVal) (path : String),
      findDifference (.list as) (.list es) path =
        (if es.length = as.length then []
         else [path ++ " ‚Üí different number of elements: expected " ++
           toString es.length ++ ", got " ++ toString as.length])
        ++ ((List.enumFrom 0 (as.zip es)).map (fun p =>
            if valuesEqual p.2.1 p.2.2 then []
            else if isContainer p.2.2 && isContainer p.2.1 then
              findDifference p.2.1 p.2.2 (path ++ "[" ++ toString p.1 ++ "]")
            else [path ++ "[" ++ toString p.1 ++ "] ‚Üí expected " ++ pyStr p.2.2 ++
              ", got " ++ pyStr p.2.1])).flatten
        ++ (List.enumFrom (min es.length as.length)
            (as.drop (min es.length as.length))).map (fun p =>
            path ++ "[" ++ toString p.1 ++ "] ‚Üí extra element: " ++ pyStr p.2)
        ++ (List.enumFrom (min es.length as.length)
            (es.drop (min es.length as.length))).map (fun p =>
            path ++ "[" ++ toString p.1 ++ "] ‚Üí missing element: " ++ pyStr p.2)) ∧
    findDifference (.list [.int 1, .int 2]) (.list [.int 1, .int 2, .int 3]) "" =
      [" ‚Üí different number of elements: expected 3, got 2",
       "[2] ‚Üí missing element: 3"] ∧
    (∀ (outputSig : Option TypeDesc) (solutionFn : List PyVal → Except String PyVal)
       (tc : TestCase),
      (runCase outputSig solutionFn tc).passed =
        (match solutionFn tc.arguments with
         | .error _ => false
         | .ok actual =>
           (match outputSig with
            | some sig => (typeMatches sig actual "actual").1
            | Option.none => true) &&
           (match tryJsonContainer tc.expected, tryJsonContainer actual with
            | some eo, some ao => valuesEqual ao eo
            | _, _ => valuesEqual actual tc.expected))) := by
  refine ⟨?_, ?_, ?_⟩
  · intro as es path
    rw [findDifference, diffPairs_eq_enumFrom, diffExtra_eq_enumFrom,
      diffMissing_eq_enumFrom]
    by_cases h : es.length = as.length <;> simp [h]
  · have h1 : valuesEqual (.int 1) (.int 1) = true := by simp [valuesEqual, pyEq]
    have h2 : valuesEqual (.int 2) (.int 2) = true := by simp [valuesEqual, pyEq]
    have h3 : pyStr (.int 3) = "3" := by
      simp only [pyStr, pyRepr]
      decide
    simp [findDifference, diffPairs, diffExtra, diffMissing, h1, h2, h3]
    decide
  · intro outputSig solutionFn tc
    cases hrun : solutionFn tc.arguments with
    | error e => simp [runCase, hrun]
    | ok actual =>
      cases outputSig with
      | none => simp [runCase, hrun]
      | some sig =>
        rcases ht : typeMatches sig actual "actual" with ⟨ok, errOpt⟩
        cases ok <;> simp [runCase, hrun, ht]
